import Mathlib

/-!
Shallow embedding of the API_Rate_Limiter credential-to-client resolution
engine (src/src/ip_manager.py, src/src/api_key_manager.py), together with the
parts of CPython's `ipaddress` module that those files call
(`ip_address`, `ip_network(·, strict=False)`, network `__contains__`,
`str(network)`).  Addresses and networks are represented by their integer
values (`Nat`), strings by `String`/`List Char`, and the CSV source by an
explicit table value.  All resolution functions are total Lean functions
returning tagged result values, mirroring the Python methods that return
result dictionaries.
-/

/-! ### Character helpers (Python `str` predicates used by `ipaddress`) -/

/-- Python `c.isascii() and c.isdigit()` for a single character. -/
def isAsciiDigit (c : Char) : Bool := '0' ≤ c && c ≤ '9'

/-- Numeric value of a decimal digit character. -/
def digitVal (c : Char) : Nat := c.toNat - 48

/-- Membership in CPython's `_HEX_DIGITS` (`0123456789ABCDEFabcdef`). -/
def isHexChar (c : Char) : Bool :=
  isAsciiDigit c || ('a' ≤ c && c ≤ 'f') || ('A' ≤ c && c ≤ 'F')

/-- Numeric value of a hexadecimal digit character. -/
def hexVal (c : Char) : Nat :=
  if isAsciiDigit c then c.toNat - 48
  else if 'a' ≤ c && c ≤ 'f' then c.toNat - 87
  else c.toNat - 55

/-- Python `s.split(sep)` for a one-character separator: never drops empty
pieces, and splitting the empty string yields one empty piece. -/
def splitOnChar (sep : Char) : List Char → List (List Char)
  | [] => [[]]
  | c :: rest =>
    match splitOnChar sep rest with
    | g :: gs => if c = sep then [] :: g :: gs else (c :: g) :: gs
    | [] => [[c]]

/-- Python whitespace stripped by `str.strip()`. -/
def isPySpace (c : Char) : Bool :=
  c = ' ' || c = '\t' || c = '\n' || c = '\r' || c = '\x0b' || c = '\x0c'

/-- Python `s.strip()`. -/
def pyStrip (l : List Char) : List Char :=
  ((l.dropWhile isPySpace).reverse.dropWhile isPySpace).reverse

/-- Option-valued map over a list, failing if any element fails. -/
def mapOptionList (f : α → Option β) : List α → Option (List β)
  | [] => some []
  | a :: as =>
    match f a, mapOptionList f as with
    | some b, some bs => some (b :: bs)
    | _, _ => none

/-! ### IPv4 literal parsing (CPython `IPv4Address._ip_int_from_string`) -/

/-- CPython `IPv4Address._parse_octet`: 1–3 ASCII decimal digits, no leading
zero (except the single digit `0`), value at most 255. -/
def parseOctet : List Char → Option Nat
  | [] => none
  | c :: cs =>
    if !(c :: cs).all isAsciiDigit then none
    else if (c :: cs).length > 3 then none
    else if c = '0' && !cs.isEmpty then none
    else
      let v := (c :: cs).foldl (fun n d => n * 10 + digitVal d) 0
      if v > 255 then none else some v

/-- CPython `IPv4Address._ip_int_from_string`: exactly four dot-separated
octets, combined big-endian into one integer below `2 ^ 32`. -/
def parseIPv4 (s : List Char) : Option Nat :=
  if s.isEmpty then none
  else
    match mapOptionList parseOctet (splitOnChar '.' s) with
    | some [a, b, c, d] => some (((a * 256 + b) * 256 + c) * 256 + d)
    | _ => none

/-! ### IPv6 literal parsing (CPython `IPv6Address._ip_int_from_string`) -/

/-- CPython `IPv6Address._parse_hextet`: 1–4 hexadecimal digits (the empty
piece fails, as `int('', 16)` raises `ValueError`). -/
def parseHextet (l : List Char) : Option Nat :=
  if !l.all isHexChar then none
  else if l.length > 4 then none
  else if l.isEmpty then none
  else some (l.foldl (fun n d => n * 16 + hexVal d) 0)

/-- Rendering a digit below 16 as Python `'%x'` does (lowercase). -/
def toHexChar (n : Nat) : Char :=
  if n < 10 then Char.ofNat (48 + n) else Char.ofNat (87 + n)

/-- Fuel-driven helper for `natToHex`. -/
def natToHexAux (fuel n : Nat) : List Char :=
  match fuel with
  | 0 => []
  | fuel + 1 =>
    if n < 16 then [toHexChar n]
    else natToHexAux fuel (n / 16) ++ [toHexChar (n % 16)]

/-- Python `'%x' % n`: lowercase hexadecimal without leading zeros. -/
def natToHex (n : Nat) : List Char := natToHexAux 64 n

/-- One step of CPython's hextet accumulation loop: `ip <<= 16; ip |= v`. -/
def foldHextets (acc : Nat) (vs : List Nat) : Nat :=
  vs.foldl (fun a v => (a <<< 16) ||| v) acc

/-- Indices (starting from the given offset) of the empty pieces of a list. -/
def emptyIndicesAux (i : Nat) : List (List Char) → List Nat
  | [] => []
  | p :: ps =>
    if p.isEmpty then i :: emptyIndicesAux (i + 1) ps
    else emptyIndicesAux (i + 1) ps

/-- CPython `IPv6Address._ip_int_from_string` (scope id already split off):
split on `:`; at least 3 pieces; an IPv4-style last piece is replaced by two
hexadecimal pieces; at most 9 pieces; at most one empty interior piece (the
`::`), which must absorb at least one zero group; an empty end piece is only
allowed as part of a leading or trailing `::`; without `::` exactly 8
nonempty pieces are required.  The hextets are accumulated big-endian. -/
def parseIPv6NoScope (s : List Char) : Option Nat :=
  if s.isEmpty then none else
  let parts0 := splitOnChar ':' s
  if parts0.length < 3 then none else
  let withV4 : Option (List (List Char)) :=
    match parts0.getLast? with
    | none => none
    | some last =>
      if last.contains '.' then
        match parseIPv4 last with
        | some v4 =>
          some (parts0.dropLast ++ [natToHex (v4 >>> 16), natToHex (v4 &&& 65535)])
        | none => none
      else some parts0
  match withV4 with
  | none => none
  | some parts =>
    if parts.length > 9 then none else
    let headEmpty := (parts.headD ['x']).isEmpty
    let lastEmpty := (parts.getLastD ['x']).isEmpty
    match emptyIndicesAux 1 (parts.drop 1).dropLast with
    | [] =>
      if parts.length ≠ 8 then none
      else if headEmpty then none
      else if lastEmpty then none
      else
        match mapOptionList parseHextet parts with
        | some vs => some (foldHextets 0 vs)
        | none => none
    | [i] =>
      let hi := if headEmpty then i - 1 else i
      let lo := if lastEmpty then parts.length - i - 2 else parts.length - i - 1
      if headEmpty && hi ≠ 0 then none
      else if lastEmpty && lo ≠ 0 then none
      else if 8 - (hi + lo) < 1 then none
      else
        match mapOptionList parseHextet (parts.take hi),
              mapOptionList parseHextet (parts.drop (parts.length - lo)) with
        | some hiVs, some loVs =>
          some (foldHextets ((foldHextets 0 hiVs) <<< (16 * (8 - (hi + lo)))) loVs)
        | _, _ => none
    | _ => none

/-- CPython `IPv6Address.__init__` on a string: a `/` anywhere in the
string is rejected before anything else, then `_split_scope_id` (at most
one `%`, a nonempty scope id) and the integer parse (the scope does not
influence the numeric value used for containment). -/
def parseIPv6 (s : List Char) : Option Nat :=
  if s.contains '/' then none
  else
    match splitOnChar '%' s with
    | [addr] => parseIPv6NoScope addr
    | [addr, scope] => if scope.isEmpty then none else parseIPv6NoScope addr
    | _ => none

/-! ### Addresses and `ipaddress.ip_address` -/

/-- A parsed IP address: the family tag and the integer value. -/
inductive IPAddr where
  | v4 (a : Nat)
  | v6 (a : Nat)
deriving DecidableEq

/-- CPython `ipaddress.ip_address`: try `IPv4Address`, then `IPv6Address`. -/
def ip_address (s : List Char) : Option IPAddr :=
  match parseIPv4 s with
  | some a => some (.v4 a)
  | none =>
    match parseIPv6 s with
    | some a => some (.v6 a)
    | none => none

/-! ### Networks and `ipaddress.ip_network(·, strict := False)` -/

/-- A parsed network: family tag (4 or 6), integer network address (host
bits already cleared by the not-strict parse), and prefix length. -/
structure IPNetwork where
  version : Nat
  base : Nat
  prefixlen : Nat
deriving DecidableEq

/-- CPython `_ip_int_from_prefix`: `ALL_ONES ^ (ALL_ONES >> prefixlen)`. -/
def netmaskInt (w p : Nat) : Nat := (2 ^ w - 1) ^^^ ((2 ^ w - 1) >>> p)

/-- CPython `hostmask`: the netmask xored with `ALL_ONES`. -/
def hostmaskInt (w p : Nat) : Nat := netmaskInt w p ^^^ (2 ^ w - 1)

/-- Address width of a family tag: 32 bits for IPv4, 128 for IPv6. -/
def widthOfVersion (v : Nat) : Nat := if v = 4 then 32 else 128

/-- CPython `_prefix_from_prefix_string`: ASCII decimal digits whose value is
at most the maximum prefix length. -/
def parsePrefixStr (maxLen : Nat) (l : List Char) : Option Nat :=
  if l.isEmpty then none
  else if !l.all isAsciiDigit then none
  else
    let v := l.foldl (fun n d => n * 10 + digitVal d) 0
    if v ≤ maxLen then some v else none

/-- CPython `_count_righthand_zero_bits`, fuel-driven by the bit width. -/
def trailingZerosAux : Nat → Nat → Nat
  | 0, _ => 0
  | f + 1, n => if n % 2 = 1 then 0 else 1 + trailingZerosAux f (n / 2)

/-- CPython `_prefix_from_ip_int`: accept an integer of shape `1*0*` within
`w` bits as the netmask for the corresponding prefix length. -/
def prefixFromIpInt (w m : Nat) : Option Nat :=
  let tz := trailingZerosAux w m
  let p := w - tz
  if m >>> tz = 2 ^ p - 1 then some p else none

/-- CPython IPv4 `_make_netmask` on a string argument: a prefix-length
string, else a dotted-quad netmask (`1*0*`), else a dotted-quad hostmask
(`0*1*`, accepted by retrying on the complement). -/
def v4MaskPrefixLen (mask : List Char) : Option Nat :=
  match parsePrefixStr 32 mask with
  | some p => some p
  | none =>
    match parseIPv4 mask with
    | some m =>
      match prefixFromIpInt 32 m with
      | some p => some p
      | none => prefixFromIpInt 32 (m ^^^ (2 ^ 32 - 1))
    | none => none

/-- CPython `IPv4Network(s, strict=False)`: split on `/` (at most one); a
missing mask means the maximum prefix length; the network address is the
parsed address masked by the netmask (host bits cleared, not rejected). -/
def parseIPv4Network (s : List Char) : Option IPNetwork :=
  match splitOnChar '/' s with
  | [addr] =>
    match parseIPv4 addr with
    | some a => some ⟨4, a &&& netmaskInt 32 32, 32⟩
    | none => none
  | [addr, mask] =>
    match parseIPv4 addr, v4MaskPrefixLen mask with
    | some a, some p => some ⟨4, a &&& netmaskInt 32 p, p⟩
    | _, _ => none
  | _ => none

/-- CPython `IPv6Network(s, strict=False)`: like the IPv4 case with a
128-bit width and a prefix-length mask string. -/
def parseIPv6Network (s : List Char) : Option IPNetwork :=
  match splitOnChar '/' s with
  | [addr] =>
    match parseIPv6NoScope addr with
    | some a => some ⟨6, a &&& netmaskInt 128 128, 128⟩
    | none => none
  | [addr, mask] =>
    match parseIPv6NoScope addr, parsePrefixStr 128 mask with
    | some a, some p => some ⟨6, a &&& netmaskInt 128 p, p⟩
    | _, _ => none
  | _ => none

/-- CPython `ipaddress.ip_network(s, strict=False)`: try `IPv4Network`,
then `IPv6Network`. -/
def ip_network (s : List Char) : Option IPNetwork :=
  match parseIPv4Network s with
  | some n => some n
  | none => parseIPv6Network s

/-- CPython `_BaseNetwork.__contains__` (the `ip in network` test used by
`IPManager.validate_ip`): false across families, otherwise the address
masked by the netmask must equal the network address. -/
def netContains (n : IPNetwork) (ip : IPAddr) : Bool :=
  match ip with
  | .v4 a => n.version == 4 && (a &&& netmaskInt 32 n.prefixlen == n.base)
  | .v6 a => n.version == 6 && (a &&& netmaskInt 128 n.prefixlen == n.base)

/-! ### Rendering (`str(network)` for `matched_cidr`) -/

/-- Fuel-driven helper for `natToDec`. -/
def natToDecAux (fuel n : Nat) : List Char :=
  match fuel with
  | 0 => []
  | fuel + 1 =>
    if n < 10 then [Char.ofNat (48 + n)]
    else natToDecAux fuel (n / 10) ++ [Char.ofNat (48 + n % 10)]

/-- Python `str(n)` for a natural number. -/
def natToDec (n : Nat) : List Char := natToDecAux 64 n

/-- Python `str(IPv4Address)`: the four big-endian bytes in decimal,
joined with dots. -/
def strIPv4Int (a : Nat) : List Char :=
  natToDec ((a >>> 24) &&& 255) ++ '.' :: natToDec ((a >>> 16) &&& 255)
    ++ '.' :: natToDec ((a >>> 8) &&& 255) ++ '.' :: natToDec (a &&& 255)

/-- State of CPython `_compress_hextets`' scan: current run start and
length, best run start and length (strictly longer runs win, so the
leftmost longest run is kept). -/
def bestZeroRunAux (i cs cl bs bl : Nat) : List (List Char) → Nat × Nat
  | [] => (bs, bl)
  | h :: t =>
    if h = ['0'] then
      let cs' := if cl = 0 then i else cs
      let cl' := cl + 1
      if cl' > bl then bestZeroRunAux (i + 1) cs' cl' cs' cl' t
      else bestZeroRunAux (i + 1) cs' cl' bs bl t
    else bestZeroRunAux (i + 1) 0 0 bs bl t

/-- CPython `_compress_hextets`: replace the leftmost longest run (length at
least 2) of `"0"` groups by an empty group, padding with an extra empty
group when the run touches either end. -/
def compressHextets (hs : List (List Char)) : List (List Char) :=
  let sl := bestZeroRunAux 0 0 0 0 0 hs
  if sl.2 > 1 then
    let hs1 := if sl.1 + sl.2 = hs.length then hs ++ [[]] else hs
    let hs2 := hs1.take sl.1 ++ [] :: hs1.drop (sl.1 + sl.2)
    if sl.1 = 0 then [] :: hs2 else hs2
  else hs

/-- Python `':'.join`. -/
def joinColon : List (List Char) → List Char
  | [] => []
  | [h] => h
  | h :: t => h ++ ':' :: joinColon t

/-- Python `str(IPv6Address)`: the eight hextets in lowercase hexadecimal
with the longest zero run compressed to `::`. -/
def strIPv6Int (a : Nat) : List Char :=
  joinColon (compressHextets
    ((List.range 8).map (fun i => natToHex ((a >>> (16 * (7 - i))) &&& 65535))))

/-- Python `str(network)`: the network address followed by `/` and the
prefix length. -/
def strNetwork (n : IPNetwork) : List Char :=
  (if n.version = 4 then strIPv4Int n.base else strIPv6Int n.base)
    ++ '/' :: natToDec n.prefixlen

/-! ### The CSV source and the two managers -/

/-- A tabular data source: either unreadable/absent, or a header line plus
data rows (each row a value of the row type). -/
inductive Source (ρ : Type) where
  | missing
  | table (header : List String) (rows : List ρ)

/-- One data row of `ip_clients.csv`. -/
structure IPRow where
  client_name : String
  classification : String
  cidr_ranges : String
deriving DecidableEq

/-- One entry of `IPManager.clients`: client info plus the parsed networks,
in declaration order. -/
structure IPClient where
  client_name : String
  classification : String
  networks : List IPNetwork
deriving DecidableEq

/-- Required columns of `ip_clients.csv`. -/
def ipRequiredCols : List String := ["client_name", "classification", "cidr_ranges"]

/-- Parsing of one row's `cidr_ranges` cell: split on commas, strip each
piece, parse each independently and keep the ones that parse. -/
def parseRowNetworks (cell : String) : List IPNetwork :=
  ((splitOnChar ',' cell.toList).map pyStrip).filterMap ip_network

/-- `IPManager._load_clients`: an absent or unreadable file and a header
missing a required column both yield the empty registry; otherwise each row
contributes one record carrying its valid networks, and a row with no valid
network is dropped. -/
def ip_load_clients (src : Source IPRow) : List IPClient :=
  match src with
  | .missing => []
  | .table header rows =>
    if !ipRequiredCols.all (fun c => header.contains c) then []
    else
      rows.filterMap (fun row =>
        let networks := parseRowNetworks row.cidr_ranges
        if networks.isEmpty then none
        else some ⟨row.client_name, row.classification, networks⟩)

/-- Result of `IPManager.validate_ip`, as the tagged value the Python dict
encodes: success carries `client_name`, `classification`, `matched_cidr`;
the two failures carry the messages `"IP address not authorized"` and
`"Invalid IP address format"` respectively. -/
inductive IPResult where
  | success (client_name classification matched_cidr : String)
  | notAuthorized
  | invalidFormat
deriving DecidableEq

/-- Inner loop of `validate_ip`: first network of one client containing the
address, in declaration order. -/
def findNetwork (ip : IPAddr) : List IPNetwork → Option IPNetwork
  | [] => none
  | n :: rest => if netContains n ip then some n else findNetwork ip rest

/-- Outer loop of `validate_ip`: scan the clients in registry order and
return the first client one of whose networks contains the address. -/
def scanClients (ip : IPAddr) : List IPClient → IPResult
  | [] => .notAuthorized
  | c :: rest =>
    match findNetwork ip c.networks with
    | some n => .success c.client_name c.classification (String.mk (strNetwork n))
    | none => scanClients ip rest

/-- `IPManager.validate_ip`: parse the address (failure is the
invalid-format outcome), then scan the registry (no containing network is
the not-authorized outcome). -/
def validate_ip (clients : List IPClient) (ip_str : String) : IPResult :=
  match ip_address ip_str.toList with
  | none => .invalidFormat
  | some ip => scanClients ip clients

/-- One data row of `clients.csv`. -/
structure KeyRow where
  api_key : String
  client_name : String
  classification : String
deriving DecidableEq

/-- The value stored for one API key. -/
structure KeyRecord where
  client_name : String
  classification : String
deriving DecidableEq

/-- Required columns of `clients.csv`. -/
def keyRequiredCols : List String := ["api_key", "client_name", "classification"]

/-- Python dict assignment `d[k] = v`: replace the value in place if the key
is present, else append the binding. -/
def dictInsert (d : List (String × KeyRecord)) (k : String) (v : KeyRecord) :
    List (String × KeyRecord) :=
  match d with
  | [] => [(k, v)]
  | (k', v') :: rest =>
    if k' = k then (k, v) :: rest else (k', v') :: dictInsert rest k v

/-- Python dict lookup `d[k]` / `k in d`. -/
def dictLookup (d : List (String × KeyRecord)) (k : String) : Option KeyRecord :=
  match d with
  | [] => none
  | (k', v) :: rest => if k' = k then some v else dictLookup rest k

/-- `APIKeyManager._load_clients`: an absent or unreadable file and a header
missing a required column both yield the empty registry; otherwise every row
is stored unconditionally, keyed by its `api_key` field (a duplicate key
overwrites the earlier value). -/
def key_load_clients (src : Source KeyRow) : List (String × KeyRecord) :=
  match src with
  | .missing => []
  | .table header rows =>
    if !keyRequiredCols.all (fun c => header.contains c) then []
    else
      rows.foldl
        (fun d row => dictInsert d row.api_key ⟨row.client_name, row.classification⟩) []

/-- Result of `APIKeyManager.validate_key`: success carries `client_name`
and `classification`; the failure carries the message `"Invalid API Key"`. -/
inductive KeyResult where
  | success (client_name classification : String)
  | invalidKey
deriving DecidableEq

/-- `APIKeyManager.validate_key`: verbatim lookup of the presented key. -/
def validate_key (clients : List (String × KeyRecord)) (api_key : String) : KeyResult :=
  match dictLookup clients api_key with
  | some r => .success r.client_name r.classification
  | none => .invalidKey

/-! ### Reload (`IPManager.reload_clients`) -/

/-- The mutable state of an `IPManager` instance: its published `clients`
attribute. -/
structure IPManagerState where
  clients : List IPClient
deriving DecidableEq

/-- `IPManager.reload_clients`: `self.clients = self._load_clients()` — the
new registry is built in full by `_load_clients` and published by a single
attribute assignment. -/
def reload_clients (_ : IPManagerState) (src : Source IPRow) : IPManagerState :=
  ⟨ip_load_clients src⟩

/-- Number of loop iterations `_load_clients` performs while building its
local list (one per data row). -/
def loaderLocalSteps (src : Source IPRow) : Nat :=
  match src with
  | .missing => 0
  | .table _ rows => rows.length

/-- The sequence of values of the published `clients` attribute that a
concurrent reader can observe while `reload_clients` runs: one observation
per loader iteration (all still the old registry, since the loader only
mutates a local list) and the single post-assignment observation. -/
def reload_observables (old : IPManagerState) (src : Source IPRow) :
    List IPManagerState :=
  (List.range (loaderLocalSteps src + 1)).map (fun _ => old)
    ++ [reload_clients old src]

/-! ### Derived views and concrete fixtures used by the verification -/

/-- All `(client, network)` pairs of a registry in declaration order: client
records in registry order, each client's networks in declaration order.
The matcher's scan order is exactly this flattened order. -/
def declarationPairs : List IPClient → List (IPClient × IPNetwork)
  | [] => []
  | c :: rest => c.networks.map (fun n => (c, n)) ++ declarationPairs rest

/-- The last row of a key source whose `api_key` field equals the given
key (the row whose value survives the dict's last-write-wins build). -/
def lastRowWith (rows : List KeyRow) (k : String) : Option KeyRow :=
  rows.reverse.find? (fun r => r.api_key == k)

/-- Header of `ip_clients.csv`. -/
def ipHeader : List String := ["client_name", "classification", "cidr_ranges"]

/-- Header of `clients.csv`. -/
def keyHeader : List String := ["api_key", "client_name", "classification"]

/-- Registry with client X's `10.0.0.0/8` declared before client Y's
`10.1.0.0/16` subset (the spec's precedence fixture). -/
def overlapReg : List IPClient :=
  [⟨"ClientX", "premium", [⟨4, 167772160, 8⟩]⟩,
   ⟨"ClientY", "standard", [⟨4, 167837696, 16⟩]⟩]

/-- Key rows holding exactly the spec's example row. -/
def specKeyRows : List KeyRow := [⟨"12345-ABCDE", "ClientA", "premium"⟩]

/-- Key registry built from the spec's example row. -/
def specKeyReg : List (String × KeyRecord) :=
  key_load_clients (.table keyHeader specKeyRows)

/-- IP rows with a mixed-validity cell and an all-malformed cell. -/
def mixedIPRows : List IPRow :=
  [⟨"A", "premium", "10.0.0.0/8, banana"⟩,
   ⟨"B", "standard", "nonsense, 999.1.1.1/8"⟩]

/-- IP rows whose single range is written with nonzero host bits. -/
def hostBitsRows : List IPRow := [⟨"HostBits", "premium", "192.168.1.5/24"⟩]

/-- Registry loaded from `hostBitsRows`. -/
def hostBitsReg : List IPClient := ip_load_clients (.table ipHeader hostBitsRows)

/-- Registry declaring only an IPv4 network (`192.168.1.0/24`). -/
def v4OnlyReg : List IPClient :=
  [⟨"V4", "standard", [⟨4, 3232235776, 24⟩]⟩]

/-- Registry declaring only an IPv6 network (`2001:db8::/32`). -/
def v6OnlyReg : List IPClient :=
  [⟨"V6", "premium", [⟨6, 42540766411282592856903984951653826560, 32⟩]⟩]

/-- Key rows whose single row has an empty `api_key` field. -/
def emptyKeyRows : List KeyRow := [⟨"", "Anon", "standard"⟩]

/-- A header missing required columns. -/
def badHeader : List String := ["client_name"]

/-- A small well-formed IP source, for the reload fixture. -/
def demoIPSource : Source IPRow := .table ipHeader [⟨"A", "premium", "10.0.0.0/8"⟩]

/-! ### Shared lemmas about the matcher -/

/-- The inner loop equals `List.find?` of the containment test. -/
theorem findNetwork_eq_find? (ip : IPAddr) (l : List IPNetwork) :
    findNetwork ip l = l.find? (fun n => netContains n ip) := by
  induction l with
  | nil => rfl
  | cons n rest ih =>
    by_cases h : netContains n ip
    · simp [findNetwork, h]
    · simp [findNetwork, h, ih]

/-- The inner loop returns nothing exactly when no network contains the
address. -/
theorem findNetwork_eq_none_iff (ip : IPAddr) (l : List IPNetwork) :
    findNetwork ip l = none ↔ ∀ n ∈ l, netContains n ip = false := by
  rw [findNetwork_eq_find?]
  simp

/-- The nested scan equals a single `List.find?` over the registry's
`(client, network)` pairs in declaration order. -/
theorem scanClients_eq_find? (ip : IPAddr) (clients : List IPClient) :
    scanClients ip clients =
      match (declarationPairs clients).find? (fun q => netContains q.2 ip) with
      | some q => .success q.1.client_name q.1.classification (String.mk (strNetwork q.2))
      | none => .notAuthorized := by
  induction clients with
  | nil => rfl
  | cons c rest ih =>
    have hmap : (c.networks.map (fun n => (c, n))).find? (fun q => netContains q.2 ip)
        = (findNetwork ip c.networks).map (fun n => (c, n)) := by
      rw [findNetwork_eq_find?, List.find?_map]
      rfl
    cases h : findNetwork ip c.networks with
    | some n =>
      rw [h] at hmap
      simp [scanClients, declarationPairs, List.find?_append, h, hmap]
    | none =>
      rw [h] at hmap
      simp only [scanClients, declarationPairs, List.find?_append, h, hmap,
        Option.map_none, Option.none_or]
      exact ih

/-- The scan never reports a format error. -/
theorem scanClients_ne_invalidFormat (ip : IPAddr) (clients : List IPClient) :
    scanClients ip clients ≠ .invalidFormat := by
  induction clients with
  | nil => simp [scanClients]
  | cons c rest ih =>
    cases h : findNetwork ip c.networks <;> simp [scanClients, h, ih]

/-- The scan reports not-authorized exactly when no registered network of
any client contains the address. -/
theorem scanClients_notAuthorized_iff (ip : IPAddr) (clients : List IPClient) :
    scanClients ip clients = .notAuthorized ↔
      ∀ c ∈ clients, ∀ n ∈ c.networks, netContains n ip = false := by
  induction clients with
  | nil => simp [scanClients]
  | cons c rest ih =>
    cases h : findNetwork ip c.networks with
    | some n =>
      simp only [scanClients, h]
      constructor
      · intro hcon
        exact absurd hcon (by simp)
      · intro hall
        exfalso
        have hfind : c.networks.find? (fun m => netContains m ip) = some n := by
          rw [← findNetwork_eq_find?]
          exact h
        have hmem := List.mem_of_find?_eq_some hfind
        have hpos := List.find?_some hfind
        have := hall c (List.mem_cons_self c rest) n hmem
        rw [this] at hpos
        cases hpos
    | none =>
      simp only [scanClients, h]
      rw [ih, findNetwork_eq_none_iff] at *
      constructor
      · intro hr c' hc' n hn
        rcases List.mem_cons.mp hc' with hc | hc
        · subst hc
          exact h n hn
        · exact hr c' hc n hn
      · intro hall c' hc' n hn
        exact hall c' (List.mem_cons_of_mem _ hc') n hn

/-! ### C1 and C2 -/

/-- C1: for every registry state and every string that parses as an IP
address, `validate_ip` performs a pure first-match scan: its result is
determined by the first `(client, network)` pair, in declaration order
(clients in registry order, each client's networks in declaration order),
whose network contains the address; so when overlapping ranges of two
clients both contain the address the client declared earlier always wins,
with no longest-prefix or priority comparison. -/
theorem validate_ip_first_match (clients : List IPClient) (s : String) (ip : IPAddr)
    (hp : ip_address s.toList = some ip) :
    validate_ip clients s =
      match (declarationPairs clients).find? (fun q => netContains q.2 ip) with
      | some q => .success q.1.client_name q.1.classification (String.mk (strNetwork q.2))
      | none => .notAuthorized := by
  unfold validate_ip
  rw [hp]
  exact scanClients_eq_find? ip clients

/-- Witness for C1 at the spec's constructed registry: `10.0.0.0/8` of
client X is declared before the subset `10.1.0.0/16` of client Y, and the
address `10.1.2.3` in the overlap resolves to X. -/
theorem validate_ip_first_match_witness :
    validate_ip overlapReg "10.1.2.3" = .success "ClientX" "premium" "10.0.0.0/8" := by
  rw [validate_ip_first_match overlapReg "10.1.2.3" (.v4 167838211) (by decide)]
  decide

/-- C2: `validate_ip` returns the invalid-format outcome exactly when the
input is not a syntactically valid IPv4 or IPv6 literal (in particular on
the empty string), and the not-authorized outcome exactly when the input is
a valid literal contained in no registered network; the two outcomes are
distinct constructors of the result type and `validate_ip` is a total
function into that type, so both are returned as tagged values rather than
thrown. -/
theorem validate_ip_error_taxonomy (clients : List IPClient) (s : String) :
    (validate_ip clients s = .invalidFormat ↔ ip_address s.toList = none)
    ∧ (validate_ip clients s = .notAuthorized ↔
        ∃ ip, ip_address s.toList = some ip ∧
          ∀ c ∈ clients, ∀ n ∈ c.networks, netContains n ip = false)
    ∧ validate_ip clients "" = .invalidFormat := by
  refine ⟨?_, ?_, ?_⟩
  · unfold validate_ip
    cases h : ip_address s.toList with
    | none => simp
    | some ip => simp [scanClients_ne_invalidFormat ip clients]
  · unfold validate_ip
    cases h : ip_address s.toList with
    | none => simp
    | some ip => simp [scanClients_notAuthorized_iff]
  · rfl

/-! ### Shared lemmas about the key registry -/

/-- Effect of one Python dict assignment on a later lookup. -/
theorem dictLookup_dictInsert (d : List (String × KeyRecord)) (k k' : String) (v : KeyRecord) :
    dictLookup (dictInsert d k v) k' = if k = k' then some v else dictLookup d k' := by
  induction d with
  | nil =>
    by_cases h : k = k' <;> simp [dictInsert, dictLookup, h]
  | cons kv rest ih =>
    obtain ⟨k₀, v₀⟩ := kv
    by_cases h : k₀ = k
    · subst h
      by_cases h2 : k₀ = k' <;> simp [dictInsert, dictLookup, h2]
    · by_cases h2 : k₀ = k'
      · subst h2
        have hne : ¬ (k = k₀) := fun he => h he.symm
        simp [dictInsert, dictLookup, h, hne]
      · simp [dictInsert, dictLookup, h, h2, ih]

/-- Looking up a key in the dict built by folding the rows finds the value
of the last row carrying that key (last-write-wins). -/
theorem dictLookup_foldl_rows (rows : List KeyRow) (d : List (String × KeyRecord)) (k : String) :
    dictLookup
      (rows.foldl (fun d row => dictInsert d row.api_key ⟨row.client_name, row.classification⟩) d) k
      = match lastRowWith rows k with
        | some r => some ⟨r.client_name, r.classification⟩
        | none => dictLookup d k := by
  induction rows generalizing d with
  | nil => simp [lastRowWith]
  | cons r rs ih =>
    simp only [List.foldl_cons]
    rw [ih]
    simp only [lastRowWith, List.reverse_cons, List.find?_append]
    cases hfind : rs.reverse.find? (fun r' => r'.api_key == k) with
    | some r' => simp
    | none =>
      simp only [Option.none_or, List.find?_cons, List.find?_nil]
      by_cases hr : r.api_key = k
      · simp [hr, dictLookup_dictInsert]
      · have hrb : (r.api_key == k) = false := beq_eq_false_iff_ne.mpr hr
        simp [hrb, hr, dictLookup_dictInsert]

/-! ### C3 -/

/-- C3: `validate_key` looks the credential up verbatim — with a valid
header, the result is success carrying exactly the stored record's client
name and classification when some row's `api_key` equals the credential
character for character (the last such row, by the dict's last-write-wins
build), and the invalid-credential outcome otherwise; no normalization or
case-folding intervenes. -/
theorem validate_key_exact_match (header : List String) (rows : List KeyRow) (k : String)
    (hh : keyRequiredCols.all (fun c => header.contains c) = true) :
    validate_key (key_load_clients (.table header rows)) k =
      match lastRowWith rows k with
      | some r => .success r.client_name r.classification
      | none => .invalidKey := by
  unfold validate_key key_load_clients
  simp only [hh, Bool.not_true, Bool.false_eq_true, if_false]
  rw [dictLookup_foldl_rows]
  cases lastRowWith rows k <;> simp [dictLookup]

/-- Witness for C3: against the registry built from the row
`12345-ABCDE,ClientA,premium`, the exact key yields success with name
`ClientA` and classification `premium`, and the case-varied key misses. -/
theorem validate_key_exact_match_witness :
    validate_key specKeyReg "12345-ABCDE" = .success "ClientA" "premium"
    ∧ validate_key specKeyReg "12345-abcde" = .invalidKey := by
  constructor
  · rw [show specKeyReg = key_load_clients (.table keyHeader specKeyRows) from rfl,
      validate_key_exact_match keyHeader specKeyRows "12345-ABCDE" (by decide)]
    decide
  · rw [show specKeyReg = key_load_clients (.table keyHeader specKeyRows) from rfl,
      validate_key_exact_match keyHeader specKeyRows "12345-abcde" (by decide)]
    decide

/-! ### C4, C9, C10 — loader behavior -/

/-- C4: the IP loader is best-effort per network: with a valid header, each
comma-separated, stripped piece of a row's `cidr_ranges` cell is parsed
independently and the failures are dropped without aborting the row, a row
whose valid-network list comes out empty contributes no record, and
consequently every record of any loaded registry carries at least one
parsed network. -/
theorem ip_loader_best_effort (src : Source IPRow) :
    (∀ rec ∈ ip_load_clients src, rec.networks ≠ [])
    ∧ (∀ header rows, ipRequiredCols.all (fun c => header.contains c) = true →
        ip_load_clients (.table header rows) =
          rows.filterMap (fun row =>
            let networks :=
              ((splitOnChar ',' row.cidr_ranges.toList).map pyStrip).filterMap ip_network
            if networks.isEmpty then none
            else some ⟨row.client_name, row.classification, networks⟩)) := by
  constructor
  · intro rec hrec
    match src with
    | .missing => cases hrec
    | .table header rows =>
      unfold ip_load_clients at hrec
      by_cases hh : ipRequiredCols.all (fun c => header.contains c)
      · simp only [hh, Bool.not_true, Bool.false_eq_true, if_false] at hrec
        obtain ⟨row, hrow, heq⟩ := List.mem_filterMap.mp hrec
        split at heq
        · cases heq
        next hne =>
          cases heq
          intro hnil
          exact hne (List.isEmpty_iff.mpr hnil)
      · simp only [hh, Bool.not_false, if_true] at hrec
        cases hrec
  · intro header rows hh
    simp only [ip_load_clients, hh, Bool.not_true, Bool.false_eq_true, if_false,
      parseRowNetworks]

/-- Witness for C4: the mixed-validity cell `"10.0.0.0/8, banana"` keeps
only the valid network, the all-malformed row contributes no record, and
the surviving record's network list is nonempty by the theorem. -/
theorem ip_loader_best_effort_witness :
    ip_load_clients (.table ipHeader mixedIPRows)
        = [⟨"A", "premium", [⟨4, 167772160, 8⟩]⟩]
    ∧ (⟨"A", "premium", [⟨4, 167772160, 8⟩]⟩ : IPClient).networks ≠ [] := by
  refine ⟨by decide, ?_⟩
  exact (ip_loader_best_effort (.table ipHeader mixedIPRows)).1 _ (by decide)

/-- C9: both loaders fail softly: an absent or unreadable source and a
header whose column set misses a required column both produce the empty
registry as a value (no exception is modelled anywhere on the load path),
and under the empty registry every key lookup fails and no IP resolution
can succeed. -/
theorem loaders_fail_soft :
    key_load_clients .missing = []
    ∧ ip_load_clients .missing = []
    ∧ (∀ header rows, keyRequiredCols.all (fun c => header.contains c) = false →
        key_load_clients (.table header rows) = [])
    ∧ (∀ header rows, ipRequiredCols.all (fun c => header.contains c) = false →
        ip_load_clients (.table header rows) = [])
    ∧ (∀ k, validate_key [] k = .invalidKey)
    ∧ (∀ s n c m, validate_ip [] s ≠ .success n c m) := by
  refine ⟨rfl, rfl, ?_, ?_, fun k => rfl, ?_⟩
  · intro header rows hh
    simp only [key_load_clients, hh, Bool.not_false, if_true]
  · intro header rows hh
    simp only [ip_load_clients, hh, Bool.not_false, if_true]
  · intro s n c m
    unfold validate_ip
    cases h : ip_address s.toList with
    | none => simp
    | some ip => simp [scanClients]

/-- Witness for C9: a header holding only `client_name` yields the empty
registry for both loaders. -/
theorem loaders_fail_soft_witness :
    key_load_clients (.table badHeader [⟨"k", "n", "c"⟩]) = []
    ∧ ip_load_clients (.table badHeader [⟨"n", "c", "10.0.0.0/8"⟩]) = [] := by
  constructor
  · exact loaders_fail_soft.2.2.1 badHeader _ (by decide)
  · exact loaders_fail_soft.2.2.2.1 badHeader _ (by decide)

/-- C10: with a valid header the key loader stores one entry per data row
unconditionally — the registry is the fold of dict assignments over every
row, keyed by the row's `api_key` field even when that field is the empty
string — so `validate_key ""` returns success with the stored row's name
and classification whenever the source holds a row with an empty key. -/
theorem key_loader_unconditional (header : List String) (rows : List KeyRow)
    (hh : keyRequiredCols.all (fun c => header.contains c) = true) :
    (key_load_clients (.table header rows) =
      rows.foldl (fun d row => dictInsert d row.api_key ⟨row.client_name, row.classification⟩) [])
    ∧ (validate_key (key_load_clients (.table header rows)) "" =
        match lastRowWith rows "" with
        | some r => .success r.client_name r.classification
        | none => .invalidKey)
    ∧ (∀ r ∈ rows, r.api_key = "" →
        ∃ r', lastRowWith rows "" = some r'
          ∧ validate_key (key_load_clients (.table header rows)) ""
              = .success r'.client_name r'.classification) := by
  have hload : key_load_clients (.table header rows) =
      rows.foldl (fun d row => dictInsert d row.api_key ⟨row.client_name, row.classification⟩) [] := by
    simp only [key_load_clients, hh, Bool.not_true, Bool.false_eq_true, if_false]
  have hmain : validate_key (key_load_clients (.table header rows)) "" =
      match lastRowWith rows "" with
      | some r => .success r.client_name r.classification
      | none => .invalidKey := by
    rw [hload]
    unfold validate_key
    rw [dictLookup_foldl_rows]
    cases lastRowWith rows "" <;> simp [dictLookup]
  refine ⟨hload, hmain, ?_⟩
  intro r hr hkey
  cases hfind : lastRowWith rows "" with
  | none =>
    exfalso
    have hnone : rows.reverse.find? (fun r' => r'.api_key == "") = none := hfind
    have := List.find?_eq_none.mp hnone r (List.mem_reverse.mpr hr)
    simp [hkey] at this
  | some r' =>
    refine ⟨r', rfl, ?_⟩
    rw [hmain, hfind]

/-- Witness for C10: a source whose single row has an empty `api_key`
field makes `validate_key ""` succeed with that row's data. -/
theorem key_loader_unconditional_witness :
    validate_key (key_load_clients (.table keyHeader emptyKeyRows)) ""
      = .success "Anon" "standard" := by
  have h := (key_loader_unconditional keyHeader emptyKeyRows (by decide)).2.1
  rw [h]
  decide

/-! ### C5 — reload as an atomic whole-object swap (IP side; the key
manager defines no reload operation, see the results) -/

/-- C5 (CIDR registry): `reload_clients` builds the new registry entirely
inside `_load_clients` (which mutates only a local list) and publishes it
by a single attribute assignment, so every value of the published `clients`
attribute observable during a reload is either the fully-old or the
fully-new registry, never a partially built one. -/
theorem reload_atomic_swap (old : IPManagerState) (src : Source IPRow) :
    (reload_observables old src).all
      (fun st => st == old || st == reload_clients old src) = true := by
  simp only [reload_observables, List.all_append, List.all_map, Bool.and_eq_true,
    List.all_eq_true]
  constructor
  · intro i hi
    obtain ⟨j, hj, heq⟩ := List.mem_map.mp hi
    rw [← heq]
    simp
  · intro st hst
    rcases List.mem_singleton.mp hst with rfl
    simp

/-! ### C7 — cross-family containment is always false -/

/-- C7: an IPv4 address never matches an IPv6-declared network and an IPv6
address (including a v4-mapped one) never matches an IPv4-declared network:
the containment test is false across families, and a registry all of whose
networks belong to the other family resolves any address of this family to
not-authorized. -/
theorem cross_family_no_match :
    (∀ base p a : Nat, netContains ⟨4, base, p⟩ (.v6 a) = false
      ∧ netContains ⟨6, base, p⟩ (.v4 a) = false)
    ∧ (∀ clients s a, ip_address s.toList = some (.v4 a) →
        (∀ c ∈ clients, ∀ n ∈ c.networks, n.version = 6) →
        validate_ip clients s = .notAuthorized)
    ∧ (∀ clients s a, ip_address s.toList = some (.v6 a) →
        (∀ c ∈ clients, ∀ n ∈ c.networks, n.version = 4) →
        validate_ip clients s = .notAuthorized) := by
  refine ⟨fun base p a => ⟨rfl, rfl⟩, ?_, ?_⟩
  · intro clients s a hp hv
    unfold validate_ip
    rw [hp, scanClients_notAuthorized_iff]
    intro c hc n hn
    have h6 := hv c hc n hn
    simp [netContains, h6]
  · intro clients s a hp hv
    unfold validate_ip
    rw [hp, scanClients_notAuthorized_iff]
    intro c hc n hn
    have h4 := hv c hc n hn
    simp [netContains, h4]

/-- Witness for C7: the v4-mapped IPv6 literal `::ffff:192.168.1.1` parses
as an IPv6 address and does not resolve against a registry declaring only
`192.168.1.0/24`. -/
theorem cross_family_no_match_witness :
    validate_ip v4OnlyReg "::ffff:192.168.1.1" = .notAuthorized :=
  cross_family_no_match.2.2 v4OnlyReg "::ffff:192.168.1.1" 281473913979137
    (by decide) (by decide)

/-! ### Bit-level facts about the netmask and hostmask -/

/-- Shifting the all-ones word right by the prefix length leaves the
all-ones host pattern. -/
theorem shiftRight_two_pow_sub_one (w p : Nat) : (2 ^ w - 1) >>> p = 2 ^ (w - p) - 1 := by
  apply Nat.eq_of_testBit_eq
  intro i
  rw [Nat.testBit_shiftRight, Nat.testBit_two_pow_sub_one, Nat.testBit_two_pow_sub_one]
  exact decide_eq_decide.mpr (by omega)

/-- The netmask has exactly the bits from `w - p` (inclusive) to `w`
(exclusive) set. -/
theorem netmaskInt_testBit (w p i : Nat) :
    (netmaskInt w p).testBit i = decide (w - p ≤ i ∧ i < w) := by
  unfold netmaskInt
  rw [shiftRight_two_pow_sub_one, Nat.testBit_xor,
    Nat.testBit_two_pow_sub_one, Nat.testBit_two_pow_sub_one]
  by_cases h1 : i < w <;> by_cases h2 : i < w - p <;>
    simp [h1, h2] <;> omega

/-- The hostmask has exactly the bits below `w - p` set. -/
theorem hostmaskInt_testBit (w p i : Nat) :
    (hostmaskInt w p).testBit i = decide (i < w - p) := by
  unfold hostmaskInt
  rw [Nat.testBit_xor, netmaskInt_testBit, Nat.testBit_two_pow_sub_one]
  by_cases h1 : i < w <;> by_cases h2 : w - p ≤ i <;>
    simp [h1, h2] <;> omega

/-- Masking is idempotent: the stored network address is aligned. -/
theorem land_netmask_idem (x w p : Nat) :
    (x &&& netmaskInt w p) &&& netmaskInt w p = x &&& netmaskInt w p := by
  rw [Nat.land_assoc, Nat.and_self]

/-- At full prefix length the netmask is the all-ones word. -/
theorem netmaskInt_self (w : Nat) : netmaskInt w w = 2 ^ w - 1 := by
  unfold netmaskInt
  rw [shiftRight_two_pow_sub_one, Nat.sub_self]
  simp

/-- Setting all host bits of an aligned base and masking again recovers the
base: the broadcast address lies in the network. -/
theorem broadcast_land_netmask (w p b : Nat) (hb : b &&& netmaskInt w p = b) :
    (b ||| hostmaskInt w p) &&& netmaskInt w p = b := by
  conv_rhs => rw [← hb]
  apply Nat.eq_of_testBit_eq
  intro i
  rw [Nat.testBit_land, Nat.testBit_land, Nat.testBit_lor, hostmaskInt_testBit,
    netmaskInt_testBit]
  by_cases h : w - p ≤ i ∧ i < w
  · have ht : decide (w - p ≤ i ∧ i < w) = true := decide_eq_true h
    have hf : decide (i < w - p) = false := decide_eq_false (by omega)
    rw [ht, hf]
    simp
  · have ht : decide (w - p ≤ i ∧ i < w) = false := decide_eq_false h
    rw [ht]
    simp

/-! ### Structure of successfully parsed networks -/

/-- A prefix-length string parses to a value within the width. -/
theorem parsePrefixStr_le (maxLen : Nat) (l : List Char) (p : Nat)
    (h : parsePrefixStr maxLen l = some p) : p ≤ maxLen := by
  unfold parsePrefixStr at h
  split at h
  · cases h
  · split at h
    · cases h
    · have h' : (if List.foldl (fun n d => n * 10 + digitVal d) 0 l ≤ maxLen
          then some (List.foldl (fun n d => n * 10 + digitVal d) 0 l) else none) = some p := h
      split at h'
      next hle => cases h'; exact hle
      · cases h'

/-- A netmask-shaped integer yields a prefix length within the width. -/
theorem prefixFromIpInt_le (w m p : Nat) (h : prefixFromIpInt w m = some p) : p ≤ w := by
  unfold prefixFromIpInt at h
  have h' : (if m >>> trailingZerosAux w m = 2 ^ (w - trailingZerosAux w m) - 1
      then some (w - trailingZerosAux w m) else none) = some p := h
  split at h'
  · cases h'
    exact Nat.sub_le w _
  · cases h'

/-- The IPv4 netmask argument always yields a prefix length at most 32. -/
theorem v4MaskPrefixLen_le (mask : List Char) (p : Nat)
    (h : v4MaskPrefixLen mask = some p) : p ≤ 32 := by
  unfold v4MaskPrefixLen at h
  split at h
  next heq => cases h; exact parsePrefixStr_le 32 mask _ heq
  · split at h
    · split at h
      next heq => cases h; exact prefixFromIpInt_le 32 _ _ heq
      · exact prefixFromIpInt_le 32 _ _ h
    · cases h

/-- Every network produced by the IPv4 network parse is tagged version 4,
has a prefix length at most 32 and an aligned (host-bits-cleared) base. -/
theorem parseIPv4Network_spec (s : List Char) (n : IPNetwork)
    (h : parseIPv4Network s = some n) :
    n.version = 4 ∧ n.prefixlen ≤ 32 ∧ n.base &&& netmaskInt 32 n.prefixlen = n.base := by
  unfold parseIPv4Network at h
  split at h
  · split at h
    · cases h
      exact ⟨rfl, Nat.le_refl 32, land_netmask_idem _ _ _⟩
    · cases h
  · split at h
    next a p ha hp =>
      cases h
      exact ⟨rfl, v4MaskPrefixLen_le _ _ hp, land_netmask_idem _ _ _⟩
    · cases h
  · cases h

/-- Every network produced by the IPv6 network parse is tagged version 6,
has a prefix length at most 128 and an aligned base. -/
theorem parseIPv6Network_spec (s : List Char) (n : IPNetwork)
    (h : parseIPv6Network s = some n) :
    n.version = 6 ∧ n.prefixlen ≤ 128 ∧ n.base &&& netmaskInt 128 n.prefixlen = n.base := by
  unfold parseIPv6Network at h
  split at h
  · split at h
    · cases h
      exact ⟨rfl, Nat.le_refl 128, land_netmask_idem _ _ _⟩
    · cases h
  · split at h
    next a p ha hp =>
      cases h
      exact ⟨rfl, parsePrefixStr_le _ _ _ hp, land_netmask_idem _ _ _⟩
    · cases h
  · cases h

/-- Every network produced by `ip_network` carries a family tag in `{4, 6}`,
a prefix length within its family's width, and an aligned base. -/
theorem ip_network_spec (s : List Char) (n : IPNetwork)
    (h : ip_network s = some n) :
    (n.version = 4 ∨ n.version = 6)
    ∧ n.prefixlen ≤ widthOfVersion n.version
    ∧ n.base &&& netmaskInt (widthOfVersion n.version) n.prefixlen = n.base := by
  unfold ip_network at h
  split at h
  next heq =>
    cases h
    obtain ⟨hv, hp, hb⟩ := parseIPv4Network_spec s _ heq
    rw [hv]
    exact ⟨Or.inl rfl, hp, hb⟩
  next heq =>
    obtain ⟨hv, hp, hb⟩ := parseIPv6Network_spec s _ h
    rw [hv]
    exact ⟨Or.inr rfl, hp, hb⟩

/-! ### C6 — not-strict parse and normalized `matched_cidr` -/

/-- C6: the network parse is not-strict: every parsed network stores the
masked (host-bits-cleared) base, a prefix written with nonzero host bits
(`192.168.1.5/24`) parses to exactly the same stored network as its
normalized form (`192.168.1.0/24`), and a successful resolution's
`matched_cidr` is the rendering of the winning stored network — the
normalized text, not the original input string. -/
theorem cidr_host_bits_normalized :
    (∀ s n, ip_network s = some n →
      n.base &&& netmaskInt (widthOfVersion n.version) n.prefixlen = n.base)
    ∧ ip_network "192.168.1.5/24".toList = ip_network "192.168.1.0/24".toList
    ∧ hostBitsReg = [⟨"HostBits", "premium", [⟨4, 3232235776, 24⟩]⟩]
    ∧ validate_ip hostBitsReg "192.168.1.20"
        = .success "HostBits" "premium" "192.168.1.0/24" := by
  refine ⟨?_, by decide, by decide, by decide⟩
  intro s n h
  exact (ip_network_spec s n h).2.2

/-- Witness for C6: the host-bit prefix `192.168.1.5/24` parses to the
stored network `⟨4, 3232235776, 24⟩`, whose base is aligned. -/
theorem cidr_host_bits_normalized_witness :
    (⟨4, 3232235776, 24⟩ : IPNetwork).base
      &&& netmaskInt (widthOfVersion (⟨4, 3232235776, 24⟩ : IPNetwork).version)
        (⟨4, 3232235776, 24⟩ : IPNetwork).prefixlen
      = (⟨4, 3232235776, 24⟩ : IPNetwork).base :=
  cidr_host_bits_normalized.1 "192.168.1.5/24".toList ⟨4, 3232235776, 24⟩ (by decide)

/-! ### C8 — inclusive boundaries and exact-match single-address networks -/

/-- C8: containment boundaries are inclusive: for a registered network (its
family tag 4 or 6, its base aligned), the first address of the range (the
base, all host bits zero) and the last address (the base with all host bits
set) both match; and a full-length `/32` (resp. `/128`) network matches an
in-range address of its family exactly when it equals the base, so every
other same-family address fails the test. -/
theorem containment_boundaries (n : IPNetwork) :
    (n.version = 4 → n.base &&& netmaskInt 32 n.prefixlen = n.base →
      (netContains n (.v4 n.base) = true
       ∧ netContains n (.v4 (n.base ||| hostmaskInt 32 n.prefixlen)) = true
       ∧ (n.prefixlen = 32 → ∀ a, a < 2 ^ 32 →
            (netContains n (.v4 a) = true ↔ a = n.base))))
    ∧ (n.version = 6 → n.base &&& netmaskInt 128 n.prefixlen = n.base →
      (netContains n (.v6 n.base) = true
       ∧ netContains n (.v6 (n.base ||| hostmaskInt 128 n.prefixlen)) = true
       ∧ (n.prefixlen = 128 → ∀ a, a < 2 ^ 128 →
            (netContains n (.v6 a) = true ↔ a = n.base)))) := by
  constructor
  · intro hv hb
    refine ⟨?_, ?_, ?_⟩
    · simp [netContains, hv, hb]
    · simp [netContains, hv, broadcast_land_netmask 32 n.prefixlen n.base hb]
    · intro hp a ha
      simp only [netContains, hv, hp]
      rw [netmaskInt_self, Nat.and_pow_two_sub_one_of_lt_two_pow ha]
      simp
  · intro hv hb
    refine ⟨?_, ?_, ?_⟩
    · simp [netContains, hv, hb]
    · simp [netContains, hv, broadcast_land_netmask 128 n.prefixlen n.base hb]
    · intro hp a ha
      simp only [netContains, hv, hp]
      rw [netmaskInt_self, Nat.and_pow_two_sub_one_of_lt_two_pow ha]
      simp

/-- Witness for C8: for `192.168.1.0/24` the base and the all-host-bits
address both match, and the `/32` network `1.2.3.4/32` rejects the
neighbouring address `1.2.3.5`. -/
theorem containment_boundaries_witness :
    netContains ⟨4, 3232235776, 24⟩ (.v4 3232235776) = true
    ∧ netContains ⟨4, 3232235776, 24⟩ (.v4 (3232235776 ||| hostmaskInt 32 24)) = true
    ∧ netContains ⟨4, 16909060, 32⟩ (.v4 16909061) ≠ true := by
  have h1 := (containment_boundaries ⟨4, 3232235776, 24⟩).1 rfl (by decide)
  have h2 := (containment_boundaries ⟨4, 16909060, 32⟩).1 rfl (by decide)
  refine ⟨h1.1, h1.2.1, ?_⟩
  intro hc
  have := (h2.2.2 rfl 16909061 (by decide)).mp hc
  exact absurd this (by decide)
